import Mathlib

/-!
Verification of the activity-ledger core of the time-tracker repository
(src/src-tauri/src/activities.rs) against its natural-language specification.

The ledger is a SQLite-backed store with two tables:
  activities(id, name, start_time INTEGER NOT NULL, end_time INTEGER NULL)
  clears(id, time INTEGER NOT NULL)
We embed the store shallowly: a table is a list of rows in rowid (insertion)
order.  SQLite INTEGER columns are signed 64-bit; we model stored values as
unbounded Int and keep the i64-range assumption implicit in the arithmetic
(the claims under audit never force values outside the i64 range through the
signed additions), but we DO model exactly the two places where machine
arithmetic is observable in the source:
  * rusqlite reads of a column into Rust u64 fail on a negative stored value
    (modelled as an Except error), and
  * the u64 subtractions in activities_times wrap modulo 2^64 (Rust release
    semantics; with overflow checks the program aborts instead).
Every operation takes the wall clock reading "now" (seconds since the epoch,
a u64 in the source, here a Nat) as an explicit argument; the several
SystemTime::now() calls made during one ledger operation are modelled as
observing the same instant, matching the specification, which treats each
operation as happening at a single time.
-/

/-- Row of the activities table: name, start_time, optional end_time.
An absent end_time means the interval is still open. -/
structure Row where
  name : String
  start_time : Int
  end_time : Option Int
deriving DecidableEq, Repr

/-- State of the store: the activities table and the clears table (we keep
only the time column of clears; ids play no role in the audited operations),
each in rowid order. -/
structure Store where
  activities : List Row
  clears : List Int
deriving DecidableEq, Repr

/-- Rows of the activities table with end_time NULL, in rowid order
(the WHERE end_time IS NULL filter). -/
def openRows (l : List Row) : List Row :=
  l.filter (fun r => r.end_time = none)

/-- Result of "SELECT ... ORDER BY start_time DESC LIMIT 1" over a list of
rows: some row attaining the maximal start_time (none on an empty list).
SQLite leaves the choice among ties unspecified; the audited claims only use
the start_time of the result, which is the same for every tie choice. -/
def pickLatest : List Row → Option Row
  | [] => none
  | r :: rs =>
    match pickLatest rs with
    | none => some r
    | some m => if r.start_time < m.start_time then some m else some r

/-- Embeds Activities::currrent_activity.  Selects the open row with the
latest start_time and reads (name, start_time) from it; the start_time column
is read into a Rust u64, which fails on a negative stored value. -/
def currrent_activity (s : Store) : Except Unit (Option (String × Nat)) :=
  match pickLatest (openRows s.activities) with
  | none => Except.ok none
  | some r =>
    if 0 ≤ r.start_time then Except.ok (some (r.name, r.start_time.toNat))
    else Except.error ()

/-- Embeds Activities::stop_activity.  Computes end_time = now + offset,
clamps it to be no earlier than the current (latest open) start_time, then
runs "UPDATE activities SET end_time = ? WHERE end_time IS NULL", which
writes that end_time into EVERY open row. -/
def stop_activity (s : Store) (now : Nat) (offset : Int) : Except Unit Store :=
  match currrent_activity s with
  | Except.error e => Except.error e
  | Except.ok cur =>
    let end_time : Int := (now : Int) + offset
    let end_time : Int :=
      match cur with
      | some (_, start_time) =>
        if end_time < (start_time : Int) then (start_time : Int) else end_time
      | none => end_time
    Except.ok { s with activities := s.activities.map (fun r =>
      if r.end_time = none then { r with end_time := some end_time } else r) }

/-- Embeds Activities::start_activity.  Computes start_time = now + offset,
clamps it to be no earlier than the current open start_time, closes the open
rows through stop_activity with the same offset, then inserts the new row
(name, start_time, NULL) at the end of the table. -/
def start_activity (s : Store) (now : Nat) (name : String) (offset : Int) :
    Except Unit Store :=
  match currrent_activity s with
  | Except.error e => Except.error e
  | Except.ok cur =>
    let start_time : Int := (now : Int) + offset
    let start_time : Int :=
      match cur with
      | some (_, current_start_time) =>
        if start_time < (current_start_time : Int) then (current_start_time : Int)
        else start_time
      | none => start_time
    match stop_activity s now offset with
    | Except.error e => Except.error e
    | Except.ok s1 =>
      Except.ok { s1 with activities :=
        s1.activities ++ [{ name := name, start_time := start_time, end_time := none }] }

/-- Embeds Activities::list_activities: "SELECT DISTINCT name FROM
activities", distinct names in order of first appearance (table scan order). -/
def list_activities (s : Store) : List String :=
  (s.activities.map Row.name).foldl
    (fun acc n => if n ∈ acc then acc else acc ++ [n]) []

/-- Result of "SELECT time FROM clears ORDER BY time DESC LIMIT 1": the
maximal stored clear time, none when the clears table is empty (in which case
the comparison against the NULL subquery in activities_times selects no
rows). -/
def maxClears : List Int → Option Int
  | [] => none
  | t :: ts => some (ts.foldl max t)

/-- Wrapping subtraction of two Rust u64 values (release-mode semantics of
the expression a - b; with overflow checks enabled the program aborts when
b > a). -/
def u64Sub (a b : Nat) : Nat :=
  (((a : Int) - (b : Int)) % (2 ^ 64 : Int)).toNat

/-- Wrapping increment of a HashMap entry: *activities.entry(name).or_insert(0)
+= duration, on Rust u64 (release-mode wrapping add).  The map is modelled as
an association list keyed in first-insertion order. -/
def entryAdd (m : List (String × Nat)) (name : String) (d : Nat) :
    List (String × Nat) :=
  match m with
  | [] => [(name, d % 2 ^ 64)]
  | (k, v) :: rest =>
    if k = name then (k, (v + d) % 2 ^ 64) :: rest
    else (k, v) :: entryAdd rest name d

/-- Embeds the per-row body of the query loop in Activities::activities_times:
read name, start_time (u64) and end_time (Option u64) — failing on negative
stored values — and add end_time - start_time (closed row) or now - start_time
(open row), as wrapping u64 subtractions, to the entry for name. -/
def timesStep (now : Nat) (acc : List (String × Nat)) (r : Row) :
    Except Unit (List (String × Nat)) :=
  if 0 ≤ r.start_time then
    match r.end_time with
    | some e =>
      if 0 ≤ e then Except.ok (entryAdd acc r.name (u64Sub e.toNat r.start_time.toNat))
      else Except.error ()
    | none => Except.ok (entryAdd acc r.name (u64Sub now r.start_time.toNat))
  else Except.error ()

/-- Embeds Activities::activities_times.  Selects the rows with start_time at
or after the latest clear time (no rows when the clears table is empty, since
the SQL comparison with a NULL subquery is never true) and folds timesStep
over them in table order. -/
def activities_times (s : Store) (now : Nat) :
    Except Unit (List (String × Nat)) :=
  match maxClears s.clears with
  | none => Except.ok []
  | some c =>
    (s.activities.filter (fun r => c ≤ r.start_time)).foldlM (timesStep now) []

/-- Embeds Activities::clear_activities: stop the current activity with
offset 0, then insert a row with the current time into the clears table. -/
def clear_activities (s : Store) (now : Nat) : Except Unit Store :=
  match stop_activity s now 0 with
  | Except.error e => Except.error e
  | Except.ok s1 => Except.ok { s1 with clears := s1.clears ++ [(now : Int)] }

/-- Embeds Activities::hard_clear_activities: DELETE FROM activities and
DELETE FROM clears. -/
def hard_clear_activities (_ : Store) : Store :=
  { activities := [], clears := [] }

/-- Embeds the row-reading closure passed to query_map in
Activities::todays_activities: name, start_time as u64, end_time as
Option u64, failing on negative stored values. -/
def todayRead (r : Row) : Except Unit (String × Nat × Option Nat) :=
  if 0 ≤ r.start_time then
    match r.end_time with
    | some e =>
      if 0 ≤ e then Except.ok (r.name, r.start_time.toNat, some e.toNat)
      else Except.error ()
    | none => Except.ok (r.name, r.start_time.toNat, none)
  else Except.error ()

/-- Embeds Activities::todays_activities: today = now - now % 86400, then
"SELECT name, start_time, end_time FROM activities WHERE start_time >= ?"
with today as the parameter, each selected row read by todayRead. -/
def todays_activities (s : Store) (now : Nat) :
    Except Unit (List (String × Nat × Option Nat)) :=
  let today := now - now % 86400
  (s.activities.filter (fun r => (today : Int) ≤ r.start_time)).mapM todayRead

/-- Ledger mutation requests issued by the host: start(name, offset) and
stop(offset). -/
inductive Op where
  | start (name : String) (offset : Int)
  | stop (offset : Int)
deriving DecidableEq, Repr

/-- Applies one operation, issued at wall-clock instant now, to the store.
A failed call (the source propagates the rusqlite error with ?) performs its
reads before any write, so it leaves the store unchanged. -/
def applyOp (s : Store) : Nat × Op → Store
  | (now, Op.start name offset) =>
    match start_activity s now name offset with
    | Except.ok s1 => s1
    | Except.error _ => s
  | (now, Op.stop offset) =>
    match stop_activity s now offset with
    | Except.ok s1 => s1
    | Except.error _ => s

/-- Runs a finite sequence of timed operations against the store. -/
def runOps (s : Store) (ops : List (Nat × Op)) : Store :=
  ops.foldl applyOp s

/-- Number of open intervals in the store. -/
def openCount (s : Store) : Nat :=
  (openRows s.activities).length

/-- Effect of the UPDATE statement in stop_activity on the activities table:
every open row receives the end time e, every closed row is unchanged. -/
def closeAll (e : Int) (l : List Row) : List Row :=
  l.map (fun r => if r.end_time = none then { r with end_time := some e } else r)

/-- Well-formed store: every stored time fits in a Rust u64, so every column
read performed by the queries succeeds.  All stores reachable from an empty
store through the ledger operations at offsets that keep now + offset
nonnegative satisfy this. -/
def WF (s : Store) : Prop :=
  ∀ r ∈ s.activities, 0 ≤ r.start_time ∧ ∀ e, r.end_time = some e → 0 ≤ e

instance : DecidablePred WF := fun s =>
  inferInstanceAs (Decidable (∀ r ∈ s.activities, _ ∧ _))

/-- Weaker well-formedness: the open rows have nonnegative start times, so
currrent_activity (and hence the reads done by start/stop) succeeds. -/
def WFopen (s : Store) : Prop :=
  ∀ r ∈ openRows s.activities, 0 ≤ r.start_time

instance : DecidablePred WFopen := fun s =>
  inferInstanceAs (Decidable (∀ r ∈ openRows s.activities, _))

/-- Pure version of timesStep, the per-row accumulation of activities_times
once the column reads are known to succeed. -/
def timesStepP (now : Nat) (acc : List (String × Nat)) (r : Row) :
    List (String × Nat) :=
  match r.end_time with
  | some e => entryAdd acc r.name (u64Sub e.toNat r.start_time.toNat)
  | none => entryAdd acc r.name (u64Sub now r.start_time.toNat)

/-- Row tuple produced by the query loop of todays_activities for a stored
row whose reads succeed. -/
def todayTuple (r : Row) : String × Nat × Option Nat :=
  (r.name, r.start_time.toNat, r.end_time.map Int.toNat)

/-!
Failure-injected variants, for the storage-failure atomicity claim.  The
rusqlite Connection in the source runs in autocommit mode and the ledger
opens no transaction, so each individual SQL statement commits (or fails)
on its own; a statement failure makes the Rust function return early through
the ? operator, with every earlier statement already committed.  The Bool
flags say whether the corresponding statement succeeds; the returned Bool is
the overall success of the operation, and the returned Store is the state
actually left in the database.
-/

/-- Failure-injected stop_activity.  updOk: whether the single UPDATE
statement succeeds. -/
def stop_activity_inj (s : Store) (now : Nat) (offset : Int) (updOk : Bool) :
    Store × Bool :=
  match currrent_activity s with
  | Except.error _ => (s, false)
  | Except.ok cur =>
    let end_time : Int := (now : Int) + offset
    let end_time : Int :=
      match cur with
      | some (_, start_time) =>
        if end_time < (start_time : Int) then (start_time : Int) else end_time
      | none => end_time
    if updOk then ({ s with activities := closeAll end_time s.activities }, true)
    else (s, false)

/-- Failure-injected start_activity.  updOk: whether the UPDATE of the
implicit stop succeeds; insOk: whether the final INSERT succeeds. -/
def start_activity_inj (s : Store) (now : Nat) (name : String) (offset : Int)
    (updOk insOk : Bool) : Store × Bool :=
  match currrent_activity s with
  | Except.error _ => (s, false)
  | Except.ok cur =>
    let start_time : Int := (now : Int) + offset
    let start_time : Int :=
      match cur with
      | some (_, current_start_time) =>
        if start_time < (current_start_time : Int) then (current_start_time : Int)
        else start_time
      | none => start_time
    match stop_activity_inj s now offset updOk with
    | (s1, false) => (s1, false)
    | (s1, true) =>
      if insOk then
        ({ s1 with activities :=
          s1.activities ++ [{ name := name, start_time := start_time, end_time := none }] },
          true)
      else (s1, false)

/-- Failure-injected clear_activities.  updOk: whether the UPDATE of the
internal stop succeeds; insOk: whether the INSERT into clears succeeds. -/
def clear_activities_inj (s : Store) (now : Nat) (updOk insOk : Bool) :
    Store × Bool :=
  match stop_activity_inj s now 0 updOk with
  | (s1, false) => (s1, false)
  | (s1, true) =>
    if insOk then ({ s1 with clears := s1.clears ++ [(now : Int)] }, true)
    else (s1, false)

/-! Basic lemmas about the table combinators. -/

theorem pickLatest_mem : ∀ {l : List Row} {r : Row}, pickLatest l = some r → r ∈ l := by
  intro l
  induction l with
  | nil => intro r h; simp [pickLatest] at h
  | cons a as ih =>
    intro r h
    simp only [pickLatest] at h
    cases hp : pickLatest as with
    | none =>
      rw [hp] at h
      simp at h
      simp [h]
    | some m =>
      rw [hp] at h
      by_cases hlt : a.start_time < m.start_time <;> simp [hlt] at h
      · exact List.mem_cons_of_mem a (ih (hp.trans (by rw [h])))
      · simp [h]

theorem pickLatest_eq_none : ∀ {l : List Row}, pickLatest l = none ↔ l = [] := by
  intro l
  cases l with
  | nil => simp [pickLatest]
  | cons a as =>
    simp only [pickLatest]
    cases hp : pickLatest as with
    | none => simp
    | some m => by_cases hlt : a.start_time < m.start_time <;> simp [hlt]

theorem pickLatest_max : ∀ {l : List Row} {r : Row}, pickLatest l = some r →
    ∀ x ∈ l, x.start_time ≤ r.start_time := by
  intro l
  induction l with
  | nil => intro r h; simp [pickLatest] at h
  | cons a as ih =>
    intro r h x hx
    simp only [pickLatest] at h
    cases hp : pickLatest as with
    | none =>
      rw [hp] at h
      simp at h
      subst h
      rcases List.mem_cons.mp hx with hxa | hxs
      · exact le_of_eq (by rw [hxa])
      · rw [pickLatest_eq_none.mp hp] at hxs; simp at hxs
    | some m =>
      rw [hp] at h
      rcases List.mem_cons.mp hx with hxa | hxs
      · subst hxa
        by_cases hlt : x.start_time < m.start_time <;> simp [hlt] at h
        · rw [← h]; exact le_of_lt hlt
        · rw [← h]
      · have hxm := ih hp x hxs
        by_cases hlt : a.start_time < m.start_time <;> simp [hlt] at h
        · rw [← h]; exact hxm
        · rw [← h]; exact le_trans hxm (le_of_not_lt hlt)

theorem openRows_cons (x : Row) (xs : List Row) :
    openRows (x :: xs) =
      if x.end_time = none then x :: openRows xs else openRows xs := by
  simp [openRows, List.filter_cons]

theorem openRows_append (l1 l2 : List Row) :
    openRows (l1 ++ l2) = openRows l1 ++ openRows l2 := by
  simp [openRows, List.filter_append]

theorem openRows_closeAll (e : Int) (l : List Row) : openRows (closeAll e l) = [] := by
  induction l with
  | nil => rfl
  | cons a as ih =>
    by_cases ha : a.end_time = none <;>
      simp [closeAll, List.map_cons, openRows_cons, ha] at ih ⊢ <;>
      simpa [closeAll, openRows] using ih

theorem closeAll_map_name (e : Int) (l : List Row) :
    (closeAll e l).map Row.name = l.map Row.name := by
  induction l with
  | nil => rfl
  | cons a as ih =>
    by_cases ha : a.end_time = none <;> simp [closeAll, ha] at ih ⊢ <;> exact ih

/-! Characterization lemmas for the three mutating operations. -/

/-- Value written by the UPDATE of stop_activity, as a function of the result
of the currrent_activity read. -/
def clampedEnd (now : Nat) (offset : Int) : Option (String × Nat) → Int
  | some (_, start_time) =>
    if (now : Int) + offset < (start_time : Int) then (start_time : Int)
    else (now : Int) + offset
  | none => (now : Int) + offset

theorem stop_activity_eq (s : Store) (now : Nat) (offset : Int) :
    stop_activity s now offset =
      match currrent_activity s with
      | Except.error e => Except.error e
      | Except.ok cur =>
        Except.ok { s with activities := closeAll (clampedEnd now offset cur) s.activities } := by
  unfold stop_activity closeAll clampedEnd
  cases currrent_activity s with
  | error e => rfl
  | ok cur => cases cur with
    | none => rfl
    | some p => rfl

theorem start_activity_eq (s : Store) (now : Nat) (name : String) (offset : Int) :
    start_activity s now name offset =
      match currrent_activity s with
      | Except.error e => Except.error e
      | Except.ok cur =>
        Except.ok { s with
          activities := closeAll (clampedEnd now offset cur) s.activities ++
            [{ name := name, start_time := clampedEnd now offset cur, end_time := none }] } := by
  unfold start_activity
  cases hc : currrent_activity s with
  | error e => rfl
  | ok cur =>
    rw [stop_activity_eq, hc]
    cases cur with
    | none => rfl
    | some p => rfl

theorem currrent_activity_cases {s : Store} {cur : Option (String × Nat)}
    (h : currrent_activity s = Except.ok cur) :
    (cur = none ∧ openRows s.activities = []) ∨
    (∃ r, pickLatest (openRows s.activities) = some r ∧ 0 ≤ r.start_time ∧
      cur = some (r.name, r.start_time.toNat)) := by
  unfold currrent_activity at h
  cases hp : pickLatest (openRows s.activities) with
  | none =>
    rw [hp] at h
    simp at h
    exact Or.inl ⟨h.symm, pickLatest_eq_none.mp hp⟩
  | some r =>
    rw [hp] at h
    by_cases h0 : 0 ≤ r.start_time <;> simp [h0] at h
    exact Or.inr ⟨r, rfl, h0, h.symm⟩

theorem clampedEnd_bounds {s : Store} {cur : Option (String × Nat)}
    (h : currrent_activity s = Except.ok cur) (now : Nat) (offset : Int) :
    ∀ r ∈ openRows s.activities, r.start_time ≤ clampedEnd now offset cur := by
  intro r hr
  rcases currrent_activity_cases h with ⟨_, hopen⟩ | ⟨m, hp, h0, hcur⟩
  · rw [hopen] at hr; simp at hr
  · subst hcur
    have hle := pickLatest_max hp r hr
    have : (m.start_time.toNat : Int) = m.start_time := Int.toNat_of_nonneg h0
    simp only [clampedEnd, this]
    by_cases hlt : (now : Int) + offset < m.start_time <;> simp [hlt]
    · exact hle
    · exact le_trans hle (le_of_not_lt hlt)

theorem stop_activity_ok {s : Store} {now : Nat} {offset : Int} {s' : Store}
    (h : stop_activity s now offset = Except.ok s') :
    ∃ e, s'.activities = closeAll e s.activities ∧ s'.clears = s.clears ∧
      ∀ r ∈ openRows s.activities, r.start_time ≤ e := by
  rw [stop_activity_eq] at h
  cases hc : currrent_activity s with
  | error e => rw [hc] at h; cases h
  | ok cur =>
    rw [hc] at h
    simp at h
    exact ⟨clampedEnd now offset cur, by rw [← h], by rw [← h],
      clampedEnd_bounds hc now offset⟩

theorem stop_activity_isOk {s : Store} {cur : Option (String × Nat)}
    (h : currrent_activity s = Except.ok cur) (now : Nat) (offset : Int) :
    stop_activity s now offset =
      Except.ok { s with activities := closeAll (clampedEnd now offset cur) s.activities } := by
  rw [stop_activity_eq, h]

theorem start_activity_ok {s : Store} {now : Nat} {name : String} {offset : Int}
    {s' : Store} (h : start_activity s now name offset = Except.ok s') :
    ∃ t, s'.activities = closeAll t s.activities ++
        [{ name := name, start_time := t, end_time := none }] ∧
      s'.clears = s.clears ∧ ∀ r ∈ openRows s.activities, r.start_time ≤ t := by
  rw [start_activity_eq] at h
  cases hc : currrent_activity s with
  | error e => rw [hc] at h; cases h
  | ok cur =>
    rw [hc] at h
    simp at h
    exact ⟨clampedEnd now offset cur, by rw [← h], by rw [← h],
      clampedEnd_bounds hc now offset⟩

theorem start_activity_isOk {s : Store} {cur : Option (String × Nat)}
    (h : currrent_activity s = Except.ok cur) (now : Nat) (name : String) (offset : Int) :
    start_activity s now name offset =
      Except.ok { s with
        activities := closeAll (clampedEnd now offset cur) s.activities ++
          [{ name := name, start_time := clampedEnd now offset cur, end_time := none }] } := by
  rw [start_activity_eq, h]

theorem currrent_activity_isOk_of_WFopen {s : Store} (h : WFopen s) :
    ∃ cur, currrent_activity s = Except.ok cur := by
  unfold currrent_activity
  cases hp : pickLatest (openRows s.activities) with
  | none => exact ⟨none, rfl⟩
  | some r =>
    have h0 := h r (pickLatest_mem hp)
    simp [h0]

/-! Open-interval counting: a successful stop leaves no open row, a
successful start leaves exactly the inserted row open. -/

theorem stop_activity_openCount {s : Store} {now : Nat} {offset : Int} {s' : Store}
    (h : stop_activity s now offset = Except.ok s') : openCount s' = 0 := by
  obtain ⟨e, ha, -, -⟩ := stop_activity_ok h
  simp [openCount, ha, openRows_closeAll]

theorem start_activity_openRows {s : Store} {now : Nat} {name : String} {offset : Int}
    {s' : Store} (h : start_activity s now name offset = Except.ok s') :
    ∃ t, openRows s'.activities = [{ name := name, start_time := t, end_time := none }] ∧
      s'.activities.getLast? = some { name := name, start_time := t, end_time := none } := by
  obtain ⟨t, ha, -, -⟩ := start_activity_ok h
  refine ⟨t, ?_, ?_⟩
  · rw [ha, openRows_append, openRows_closeAll]
    simp [openRows]
  · rw [ha]
    simp

theorem start_activity_openCount {s : Store} {now : Nat} {name : String} {offset : Int}
    {s' : Store} (h : start_activity s now name offset = Except.ok s') :
    openCount s' = 1 := by
  obtain ⟨t, ho, -⟩ := start_activity_openRows h
  simp [openCount, ho]

theorem applyOp_openCount (s : Store) (p : Nat × Op) (h : openCount s ≤ 1) :
    openCount (applyOp s p) ≤ 1 := by
  obtain ⟨now, op⟩ := p
  cases op with
  | start name offset =>
    simp only [applyOp]
    cases hm : start_activity s now name offset with
    | ok s1 => simpa using le_of_eq (start_activity_openCount hm)
    | error e => simpa using h
  | stop offset =>
    simp only [applyOp]
    cases hm : stop_activity s now offset with
    | ok s1 => simp [stop_activity_openCount hm]
    | error e => simpa using h

theorem runOps_openCount (s : Store) (ops : List (Nat × Op)) (h : openCount s ≤ 1) :
    openCount (runOps s ops) ≤ 1 := by
  induction ops generalizing s with
  | nil => exact h
  | cons p ps ih => exact ih (applyOp s p) (applyOp_openCount s p h)

theorem mem_closeAll_of_open {l : List Row} {r : Row} (hr : r ∈ l)
    (he : r.end_time = none) (e : Int) :
    { r with end_time := some e } ∈ closeAll e l := by
  show { r with end_time := some e } ∈ List.map _ l
  have hre : { r with end_time := some e } =
      (fun x : Row => if x.end_time = none then { x with end_time := some e } else x) r := by
    simp [he]
  rw [hre]
  exact List.mem_map_of_mem _ hr

theorem mem_of_mem_openRows {l : List Row} {r : Row} (h : r ∈ openRows l) :
    r ∈ l ∧ r.end_time = none := by
  have := List.mem_filter.mp h
  refine ⟨this.1, by simpa using this.2⟩

theorem pickLatest_of_openRows_singleton {s : Store} {a : Row}
    (h : openRows s.activities = [a]) :
    pickLatest (openRows s.activities) = some a := by
  rw [h]
  rfl

theorem currrent_activity_of_openRows_singleton {s : Store} {a : Row}
    (h : openRows s.activities = [a]) (h0 : 0 ≤ a.start_time) :
    currrent_activity s = Except.ok (some (a.name, a.start_time.toNat)) := by
  unfold currrent_activity
  rw [pickLatest_of_openRows_singleton h]
  simp [h0]

theorem closeAll_filter_name (e : Int) (n : String) (l : List Row) :
    (closeAll e l).filter (fun r => r.name = n) =
      (l.filter (fun r => r.name = n)).map
        (fun r => if r.end_time = none then { r with end_time := some e } else r) := by
  induction l with
  | nil => rfl
  | cons a as ih =>
    by_cases he : a.end_time = none <;> by_cases hn : a.name = n <;>
      simp [closeAll, List.filter_cons, he, hn] at ih ⊢ <;> exact ih

/-- Claim C1: starting from any store state satisfying the open-interval
invariant, after any finite sequence of start(name, offset) and stop(offset)
calls (with arbitrary names, offsets and wall-clock instants), the store
contains at most one Interval with absent end_time; moreover, immediately
after a successful start the unique open Interval is the one that start just
inserted (the last row of the activities table). -/
theorem C1_single_open_invariant :
    (∀ s : Store, openCount s ≤ 1 →
      ∀ ops : List (Nat × Op), openCount (runOps s ops) ≤ 1) ∧
    (∀ (s : Store) (now : Nat) (name : String) (offset : Int) (s' : Store),
      start_activity s now name offset = Except.ok s' →
      ∃ t, openRows s'.activities = [{ name := name, start_time := t, end_time := none }] ∧
        s'.activities.getLast? = some { name := name, start_time := t, end_time := none }) :=
  ⟨fun s h ops => runOps_openCount s ops h,
   fun _ _ _ _ _ h => start_activity_openRows h⟩

theorem C1_single_open_invariant_witness :
    openCount (runOps ⟨[], []⟩ [(5, Op.start "A" 0), (9, Op.stop 0), (12, Op.stop 3)]) ≤ 1 ∧
    (∃ t,
      openRows (Store.mk [{ name := "A", start_time := 5, end_time := none }] []).activities =
        [{ name := "A", start_time := t, end_time := none }] ∧
      (Store.mk [{ name := "A", start_time := 5, end_time := none }] []).activities.getLast? =
        some { name := "A", start_time := t, end_time := none }) :=
  ⟨C1_single_open_invariant.1 ⟨[], []⟩ (by decide)
      [(5, Op.start "A" 0), (9, Op.stop 0), (12, Op.stop 3)],
   C1_single_open_invariant.2 ⟨[], []⟩ 5 "A" 0
      (Store.mk [{ name := "A", start_time := 5, end_time := none }] []) (by rfl)⟩

/-- Claim C2: when now + offset precedes the open Interval's start_time,
stop closes it with end_time equal to its start_time (zero duration); and in
every state, a successful stop never turns an open Interval into a closed
one whose end_time precedes its start_time. -/
theorem C2_stop_clamping :
    (∀ (s : Store) (now : Nat) (offset : Int) (r : Row),
      openRows s.activities = [r] → 0 ≤ r.start_time →
      (now : Int) + offset < r.start_time →
      stop_activity s now offset =
        Except.ok { s with activities := closeAll r.start_time s.activities } ∧
      { r with end_time := some r.start_time } ∈ closeAll r.start_time s.activities) ∧
    (∀ (s : Store) (now : Nat) (offset : Int) (s' : Store),
      stop_activity s now offset = Except.ok s' →
      ∀ r ∈ s.activities, r.end_time = none →
      ∃ e, { r with end_time := some e } ∈ s'.activities ∧ r.start_time ≤ e) := by
  constructor
  · intro s now offset r hopen h0 hlt
    have hc := currrent_activity_of_openRows_singleton hopen h0
    have hclamp : clampedEnd now offset (some (r.name, r.start_time.toNat)) = r.start_time := by
      simp only [clampedEnd, Int.toNat_of_nonneg h0]
      simp [hlt]
    have hmem : r ∈ s.activities ∧ r.end_time = none :=
      mem_of_mem_openRows (by rw [hopen]; exact List.mem_singleton.mpr rfl)
    refine ⟨?_, mem_closeAll_of_open hmem.1 hmem.2 r.start_time⟩
    rw [stop_activity_isOk hc now offset, hclamp]
  · intro s now offset s' h r hr he
    obtain ⟨e, ha, -, hb⟩ := stop_activity_ok h
    refine ⟨e, ?_, hb r (List.mem_filter.mpr ⟨hr, by simp [he]⟩)⟩
    rw [ha]
    exact mem_closeAll_of_open hr he e

theorem C2_stop_clamping_witness :
    (stop_activity ⟨[{ name := "A", start_time := 100, end_time := none }], []⟩ 10 0 =
      Except.ok { activities := closeAll 100 [{ name := "A", start_time := 100, end_time := none }],
                  clears := [] } ∧
      ({ name := "A", start_time := 100, end_time := some 100 } : Row) ∈
        closeAll 100 [{ name := "A", start_time := 100, end_time := none }]) ∧
    (∃ e, ({ name := "A", start_time := 100, end_time := some e } : Row) ∈
        (Store.mk [{ name := "A", start_time := 100, end_time := some 100 }] []).activities ∧
      (100 : Int) ≤ e) :=
  ⟨C2_stop_clamping.1 ⟨[{ name := "A", start_time := 100, end_time := none }], []⟩ 10 0
      { name := "A", start_time := 100, end_time := none } (by rfl) (by decide) (by decide),
   C2_stop_clamping.2 ⟨[{ name := "A", start_time := 100, end_time := none }], []⟩ 10 0
      (Store.mk [{ name := "A", start_time := 100, end_time := some 100 }] []) (by rfl)
      { name := "A", start_time := 100, end_time := none }
      (by decide) (by rfl)⟩

/-- Claim C3: starting "B" with offset 0 while "A" is the unique open
Interval (and the only Interval named "A", with no Interval named "B")
yields exactly one closed Interval for "A" and exactly one open Interval for
"B", and the closed Interval's end_time equals the new Interval's
start_time (the same t below). -/
theorem C3_start_closes_previous :
    ∀ (s : Store) (a : Row) (now : Nat),
      s.activities.filter (fun r => r.name = "A") = [a] →
      openRows s.activities = [a] →
      s.activities.filter (fun r => r.name = "B") = [] →
      0 ≤ a.start_time →
      ∃ s' t, start_activity s now "B" 0 = Except.ok s' ∧
        s'.activities.filter (fun r => r.name = "A") = [{ a with end_time := some t }] ∧
        s'.activities.filter (fun r => r.name = "B") =
          [{ name := "B", start_time := t, end_time := none }] ∧
        openRows s'.activities = [{ name := "B", start_time := t, end_time := none }] := by
  intro s a now hA hopen hB h0
  have hc := currrent_activity_of_openRows_singleton hopen h0
  have haend : a.end_time = none :=
    (mem_of_mem_openRows (by rw [hopen]; exact List.mem_singleton.mpr rfl)).2
  set t := clampedEnd now 0 (some (a.name, a.start_time.toNat)) with ht
  refine ⟨_, t, start_activity_isOk hc now "B" 0, ?_, ?_, ?_⟩
  · rw [List.filter_append, closeAll_filter_name, hA]
    simp [haend]
  · rw [List.filter_append, closeAll_filter_name, hB]
    simp
  · rw [openRows_append, openRows_closeAll]
    simp [openRows]

theorem mem_closeAll_of_closed {l : List Row} {r : Row} (hr : r ∈ l)
    (hne : ¬ r.end_time = none) (e : Int) : r ∈ closeAll e l := by
  show r ∈ List.map _ l
  have h2 := List.mem_map_of_mem
    (fun x : Row => if x.end_time = none then { x with end_time := some e } else x) hr
  simp only at h2
  rwa [if_neg hne] at h2

theorem foldl_max_le_self (l : List Int) (a : Int) : a ≤ l.foldl max a := by
  induction l generalizing a with
  | nil => exact le_refl a
  | cons x xs ih => exact le_trans (le_max_left a x) (ih (max a x))

theorem mem_le_foldl_max (l : List Int) (a : Int) : ∀ x ∈ l, x ≤ l.foldl max a := by
  induction l generalizing a with
  | nil => intro x hx; simp at hx
  | cons y ys ih =>
    intro x hx
    rcases List.mem_cons.mp hx with h | h
    · subst h
      exact le_trans (le_max_right a x) (foldl_max_le_self ys (max a x))
    · exact ih (max a y) x h

theorem maxClears_append (l : List Int) (t : Int) :
    ∃ M, maxClears (l ++ [t]) = some M ∧ t ≤ M := by
  cases l with
  | nil => exact ⟨t, rfl, le_refl t⟩
  | cons a as =>
    exact ⟨(as ++ [t]).foldl max a, rfl, mem_le_foldl_max (as ++ [t]) a t (by simp)⟩

theorem filter_start_filter_start {c now : Int} (h : now ≤ c) (l : List Row) :
    (l.filter (fun r => now ≤ r.start_time)).filter (fun r => c ≤ r.start_time) =
      l.filter (fun r => c ≤ r.start_time) := by
  induction l with
  | nil => rfl
  | cons a as ih =>
    by_cases h2 : c ≤ a.start_time
    · have h1 : now ≤ a.start_time := le_trans h h2
      simp [List.filter_cons, h1, h2, ih]
    · by_cases h1 : now ≤ a.start_time <;> simp [List.filter_cons, h1, h2, ih]

theorem mem_foldl_dedup (l : List String) (acc : List String) (n : String) :
    n ∈ l.foldl (fun acc n => if n ∈ acc then acc else acc ++ [n]) acc ↔
      n ∈ acc ∨ n ∈ l := by
  induction l generalizing acc with
  | nil => simp
  | cons x xs ih =>
    simp only [List.foldl_cons]
    by_cases hx : x ∈ acc
    · rw [if_pos hx, ih]
      constructor
      · rintro (h | h)
        · exact Or.inl h
        · exact Or.inr (List.mem_cons_of_mem x h)
      · rintro (h | h)
        · exact Or.inl h
        · rcases List.mem_cons.mp h with rfl | h2
          · exact Or.inl hx
          · exact Or.inr h2
    · rw [if_neg hx, ih]
      simp only [List.mem_append, List.mem_singleton, List.mem_cons]
      tauto

theorem mem_list_activities {s : Store} {n : String} :
    n ∈ list_activities s ↔ n ∈ s.activities.map Row.name := by
  unfold list_activities
  rw [mem_foldl_dedup]
  simp

theorem C3_start_closes_previous_witness :
    ∃ s' t, start_activity ⟨[{ name := "A", start_time := 100, end_time := none }], []⟩ 10 "B" 0 =
        Except.ok s' ∧
      s'.activities.filter (fun r => r.name = "A") =
        [{ name := "A", start_time := 100, end_time := some t }] ∧
      s'.activities.filter (fun r => r.name = "B") =
        [{ name := "B", start_time := t, end_time := none }] ∧
      openRows s'.activities = [{ name := "B", start_time := t, end_time := none }] :=
  C3_start_closes_previous ⟨[{ name := "A", start_time := 100, end_time := none }], []⟩
    { name := "A", start_time := 100, end_time := none } 10
    (by rfl) (by rfl) (by rfl) (by decide)

/-- Claim C4 as stated is false on the code.  stop_activity runs the single
statement "UPDATE activities SET end_time = ? WHERE end_time IS NULL", which
closes EVERY open row, not at most one: in a defensive state with two open
Intervals, one stop call transitions both from open to closed. -/
theorem C4_counterexample :
    stop_activity ⟨[{ name := "A", start_time := 0, end_time := none },
                    { name := "B", start_time := 1, end_time := none }], [0]⟩ 10 0 =
      Except.ok ⟨[{ name := "A", start_time := 0, end_time := some 10 },
                  { name := "B", start_time := 1, end_time := some 10 }], [0]⟩ ∧
    openCount ⟨[{ name := "A", start_time := 0, end_time := none },
                { name := "B", start_time := 1, end_time := none }], [0]⟩ = 2 ∧
    openCount ⟨[{ name := "A", start_time := 0, end_time := some 10 },
                { name := "B", start_time := 1, end_time := some 10 }], [0]⟩ = 0 :=
  ⟨by rfl, by decide, by decide⟩

/-- Claim C4 corrected: a single successful stop(offset) call closes EVERY
open Interval, writing the same clamped end_time into each of them; every
already-closed Interval and every ClearMarker is left unchanged, and no
Interval remains open afterwards (so in a state satisfying the
single-open-interval invariant, at most one Interval transitions). -/
theorem C4_stop_frame :
    ∀ (s : Store) (now : Nat) (offset : Int) (s' : Store),
      stop_activity s now offset = Except.ok s' →
      ∃ e, s'.activities = closeAll e s.activities ∧
        s'.clears = s.clears ∧
        openRows s'.activities = [] ∧
        ∀ r ∈ s.activities, ¬ r.end_time = none → r ∈ s'.activities := by
  intro s now offset s' h
  obtain ⟨e, ha, hcl, -⟩ := stop_activity_ok h
  refine ⟨e, ha, hcl, by rw [ha]; exact openRows_closeAll e _, ?_⟩
  intro r hr hne
  rw [ha]
  exact mem_closeAll_of_closed hr hne e

theorem C4_stop_frame_witness :
    ∃ e, (Store.mk [{ name := "A", start_time := 5, end_time := some 10 },
                    { name := "C", start_time := 2, end_time := some 3 }] [2]).activities =
        closeAll e [{ name := "A", start_time := 5, end_time := none },
                    { name := "C", start_time := 2, end_time := some 3 }] ∧
      (Store.mk [{ name := "A", start_time := 5, end_time := some 10 },
                 { name := "C", start_time := 2, end_time := some 3 }] [2]).clears = [2] ∧
      openRows (Store.mk [{ name := "A", start_time := 5, end_time := some 10 },
                          { name := "C", start_time := 2, end_time := some 3 }] [2]).activities = [] ∧
      ∀ r ∈ [{ name := "A", start_time := 5, end_time := none },
             { name := "C", start_time := 2, end_time := some 3 }],
        ¬ Row.end_time r = none →
        r ∈ (Store.mk [{ name := "A", start_time := 5, end_time := some 10 },
                       { name := "C", start_time := 2, end_time := some 3 }] [2]).activities :=
  C4_stop_frame ⟨[{ name := "A", start_time := 5, end_time := none },
                  { name := "C", start_time := 2, end_time := some 3 }], [2]⟩ 10 0
    (Store.mk [{ name := "A", start_time := 5, end_time := some 10 },
               { name := "C", start_time := 2, end_time := some 3 }] [2]) (by rfl)

/-- Claim C5: after clear() at instant now, every aggregateTimes query on the
resulting store (with no later clear markers) computes the same result as on
the store with every Interval whose start_time precedes now removed — those
Intervals are excluded from aggregation — while list_activities still
contains the name of every Interval of the original store, in particular the
excluded ones. -/
theorem C5_clear_isolation :
    ∀ (s : Store) (now : Nat) (s' : Store),
      clear_activities s now = Except.ok s' →
      (∀ now' : Nat, activities_times s' now' =
        activities_times
          ⟨s'.activities.filter (fun r => (now : Int) ≤ r.start_time), s'.clears⟩ now') ∧
      (∀ r ∈ s.activities, r.start_time < (now : Int) → r.name ∈ list_activities s') := by
  intro s now s' h
  unfold clear_activities at h
  cases hs : stop_activity s now 0 with
  | error e => rw [hs] at h; cases h
  | ok s1 =>
    rw [hs] at h
    simp at h
    obtain ⟨e, ha, hcl, -⟩ := stop_activity_ok hs
    have hacts : s'.activities = closeAll e s.activities := by rw [← h]; exact ha
    have hclears : s'.clears = s.clears ++ [(now : Int)] := by rw [← h]; simp [hcl]
    constructor
    · intro now'
      obtain ⟨M, hM, hle⟩ := maxClears_append s.clears (now : Int)
      unfold activities_times
      rw [hclears, hM]
      simp only
      rw [filter_start_filter_start hle]
    · intro r hr _
      rw [mem_list_activities, ← h]
      simp only
      rw [ha, closeAll_map_name]
      exact List.mem_map_of_mem Row.name hr

theorem C5_clear_isolation_witness :
    (activities_times (Store.mk [{ name := "A", start_time := 3, end_time := some 4 }] [0, 50]) 60 =
      activities_times
        ⟨(Store.mk [{ name := "A", start_time := 3, end_time := some 4 }] [0, 50]).activities.filter
            (fun r => ((50 : Nat) : Int) ≤ r.start_time),
          (Store.mk [{ name := "A", start_time := 3, end_time := some 4 }] [0, 50]).clears⟩ 60) ∧
    "A" ∈ list_activities (Store.mk [{ name := "A", start_time := 3, end_time := some 4 }] [0, 50]) :=
  ⟨(C5_clear_isolation ⟨[{ name := "A", start_time := 3, end_time := some 4 }], [0]⟩ 50
      (Store.mk [{ name := "A", start_time := 3, end_time := some 4 }] [0, 50]) (by rfl)).1 60,
   (C5_clear_isolation ⟨[{ name := "A", start_time := 3, end_time := some 4 }], [0]⟩ 50
      (Store.mk [{ name := "A", start_time := 3, end_time := some 4 }] [0, 50]) (by rfl)).2
     { name := "A", start_time := 3, end_time := some 4 } (by decide) (by decide)⟩

/-- Claim C6: after hard_clear_activities, list_activities returns the empty
list and activities_times returns the empty mapping, at every instant. -/
theorem C6_hard_clear_total :
    ∀ (s : Store) (now : Nat),
      list_activities (hard_clear_activities s) = [] ∧
      activities_times (hard_clear_activities s) now = Except.ok [] :=
  fun _ _ => ⟨rfl, rfl⟩

/-- Claim C7 as stated is false on the code.  The ledger opens no transaction:
start issues an UPDATE (through its implicit stop) and then an INSERT as two
separately committed statements.  Injecting a failure into the INSERT alone,
a failed start("B", 0) on a store whose Interval "A" is open returns an error
yet leaves "A" closed — the state differs from the state before the call. -/
theorem C7_counterexample :
    start_activity_inj ⟨[{ name := "A", start_time := 5, end_time := none }], [0]⟩
        10 "B" 0 true false =
      (⟨[{ name := "A", start_time := 5, end_time := some 10 }], [0]⟩, false) ∧
    (⟨[{ name := "A", start_time := 5, end_time := some 10 }], [0]⟩ : Store) ≠
      ⟨[{ name := "A", start_time := 5, end_time := none }], [0]⟩ :=
  ⟨by rfl, by decide⟩

/-- Claim C7 corrected: atomicity holds per SQL statement, not per ledger
operation.  A stop whose single UPDATE fails leaves the store exactly as it
was; but a start whose INSERT fails after the implicit stop's UPDATE
succeeded leaves that UPDATE committed — every previously open Interval is
closed, not open — and a clear whose INSERT into clears fails likewise keeps
its stop's UPDATE. -/
theorem C7_statement_atomicity :
    (∀ (s : Store) (now : Nat) (offset : Int) (updOk : Bool),
      (stop_activity_inj s now offset updOk).2 = false →
      (stop_activity_inj s now offset updOk).1 = s) ∧
    (∀ (s : Store) (now : Nat) (name : String) (offset : Int)
      (cur : Option (String × Nat)),
      currrent_activity s = Except.ok cur →
      (start_activity_inj s now name offset true false).2 = false ∧
      (start_activity_inj s now name offset true false).1 =
        { s with activities := closeAll (clampedEnd now offset cur) s.activities }) ∧
    (∀ (s : Store) (now : Nat) (cur : Option (String × Nat)),
      currrent_activity s = Except.ok cur →
      (clear_activities_inj s now true false).2 = false ∧
      (clear_activities_inj s now true false).1 =
        { s with activities := closeAll (clampedEnd now 0 cur) s.activities }) := by
  refine ⟨?_, ?_, ?_⟩
  · intro s now offset updOk h
    unfold stop_activity_inj at h ⊢
    cases hc : currrent_activity s with
    | error e => rfl
    | ok cur =>
      cases updOk with
      | true => rw [hc] at h; simp at h
      | false => rfl
  · intro s now name offset cur hc
    unfold start_activity_inj stop_activity_inj
    rw [hc]
    cases cur with
    | none => exact ⟨rfl, rfl⟩
    | some p => exact ⟨rfl, rfl⟩
  · intro s now cur hc
    unfold clear_activities_inj stop_activity_inj
    rw [hc]
    cases cur with
    | none => exact ⟨rfl, rfl⟩
    | some p => exact ⟨rfl, rfl⟩

theorem C7_statement_atomicity_witness :
    ((stop_activity_inj ⟨[{ name := "A", start_time := 5, end_time := none }], [0]⟩
        10 0 false).1 =
      ⟨[{ name := "A", start_time := 5, end_time := none }], [0]⟩) ∧
    ((start_activity_inj ⟨[{ name := "A", start_time := 5, end_time := none }], [0]⟩
        10 "B" 0 true false).2 = false ∧
      (start_activity_inj ⟨[{ name := "A", start_time := 5, end_time := none }], [0]⟩
        10 "B" 0 true false).1 =
      { Store.mk [{ name := "A", start_time := 5, end_time := none }] [0] with
        activities := closeAll (clampedEnd 10 0 (some ("A", 5)))
          [{ name := "A", start_time := 5, end_time := none }] }) ∧
    ((clear_activities_inj ⟨[{ name := "A", start_time := 5, end_time := none }], [0]⟩
        10 true false).2 = false ∧
      (clear_activities_inj ⟨[{ name := "A", start_time := 5, end_time := none }], [0]⟩
        10 true false).1 =
      { Store.mk [{ name := "A", start_time := 5, end_time := none }] [0] with
        activities := closeAll (clampedEnd 10 0 (some ("A", 5)))
          [{ name := "A", start_time := 5, end_time := none }] }) :=
  ⟨C7_statement_atomicity.1 ⟨[{ name := "A", start_time := 5, end_time := none }], [0]⟩
      10 0 false (by rfl),
   C7_statement_atomicity.2.1 ⟨[{ name := "A", start_time := 5, end_time := none }], [0]⟩
      10 "B" 0 (some ("A", 5)) (by rfl),
   C7_statement_atomicity.2.2 ⟨[{ name := "A", start_time := 5, end_time := none }], [0]⟩
      10 (some ("A", 5)) (by rfl)⟩

/-- Claim C8 exercised on the code: a closed Interval with end_time 5 and
start_time 10 passes the clear filter, and activities_times computes its
duration with the Rust u64 subtraction end_time - start_time, which
underflows.  With overflow checks the program aborts; in release mode the
subtraction wraps and the reported total is 2^64 - 5 = 18446744073709551611
seconds — a huge positive amount, not the zero-or-negative contribution the
specification requires. -/
theorem C8_aggregate_underflow :
    activities_times ⟨[{ name := "A", start_time := 10, end_time := some 5 }], [0]⟩ 100 =
      Except.ok [("A", 18446744073709551611)] := by
  rfl

theorem todayRead_ok {r : Row} (h0 : 0 ≤ r.start_time)
    (he : ∀ e, r.end_time = some e → 0 ≤ e) :
    todayRead r = Except.ok (todayTuple r) := by
  unfold todayRead todayTuple
  rw [if_pos h0]
  cases hre : r.end_time with
  | none => rfl
  | some e => simp [he e hre]

theorem mapM_todayRead_ok (l : List Row)
    (h : ∀ r ∈ l, 0 ≤ r.start_time ∧ ∀ e, r.end_time = some e → 0 ≤ e) :
    l.mapM todayRead = Except.ok (l.map todayTuple) := by
  induction l with
  | nil => rfl
  | cons a as ih =>
    have ha := h a (List.mem_cons_self a as)
    rw [List.mapM_cons, todayRead_ok ha.1 ha.2,
      ih (fun r hr => h r (List.mem_cons_of_mem a hr))]
    rfl

/-- Claim C9: todays_activities returns exactly the stored Intervals whose
start_time is at or after now - (now % 86400), each as a
(name, start_time, optional end_time) tuple in table order, and its result
does not depend on the contents of the clears table. -/
theorem C9_todays_view :
    ∀ (s : Store) (now : Nat),
      (∀ cl : List Int, todays_activities ⟨s.activities, cl⟩ now = todays_activities s now) ∧
      (WF s → todays_activities s now =
        Except.ok ((s.activities.filter
          (fun r => ((now - now % 86400 : Nat) : Int) ≤ r.start_time)).map todayTuple)) := by
  intro s now
  refine ⟨fun cl => rfl, fun hwf => ?_⟩
  unfold todays_activities
  exact mapM_todayRead_ok _ (fun r hr => hwf r (List.mem_of_mem_filter hr))

theorem C9_todays_view_witness :
    (todays_activities ⟨(Store.mk [{ name := "A", start_time := 86400, end_time := some 90000 },
          { name := "B", start_time := 10, end_time := none }] [777]).activities, [3]⟩ 90060 =
      todays_activities (Store.mk [{ name := "A", start_time := 86400, end_time := some 90000 },
          { name := "B", start_time := 10, end_time := none }] [777]) 90060) ∧
    todays_activities (Store.mk [{ name := "A", start_time := 86400, end_time := some 90000 },
          { name := "B", start_time := 10, end_time := none }] [777]) 90060 =
      Except.ok (((Store.mk [{ name := "A", start_time := 86400, end_time := some 90000 },
          { name := "B", start_time := 10, end_time := none }] [777]).activities.filter
        (fun r => ((90060 - 90060 % 86400 : Nat) : Int) ≤ r.start_time)).map todayTuple) :=
  ⟨(C9_todays_view (Store.mk [{ name := "A", start_time := 86400, end_time := some 90000 },
      { name := "B", start_time := 10, end_time := none }] [777]) 90060).1 [3],
   (C9_todays_view (Store.mk [{ name := "A", start_time := 86400, end_time := some 90000 },
      { name := "B", start_time := 10, end_time := none }] [777]) 90060).2 (by decide)⟩

theorem timesStep_ok (now : Nat) (acc : List (String × Nat)) {r : Row}
    (h0 : 0 ≤ r.start_time) (he : ∀ e, r.end_time = some e → 0 ≤ e) :
    timesStep now acc r = Except.ok (timesStepP now acc r) := by
  unfold timesStep timesStepP
  rw [if_pos h0]
  cases hre : r.end_time with
  | none => rfl
  | some e => simp [he e hre]

theorem foldlM_timesStep_ok (now : Nat) (l : List Row)
    (h : ∀ r ∈ l, 0 ≤ r.start_time ∧ ∀ e, r.end_time = some e → 0 ≤ e) :
    ∀ acc, l.foldlM (timesStep now) acc = Except.ok (l.foldl (timesStepP now) acc) := by
  induction l with
  | nil => intro acc; rfl
  | cons a as ih =>
    intro acc
    have ha := h a (List.mem_cons_self a as)
    rw [List.foldlM_cons, timesStep_ok now acc ha.1 ha.2]
    exact ih (fun r hr => h r (List.mem_cons_of_mem a hr)) (timesStepP now acc a)

theorem name_mem_keys_entryAdd (m : List (String × Nat)) (n : String) (d : Nat) :
    n ∈ (entryAdd m n d).map Prod.fst := by
  induction m with
  | nil => simp [entryAdd]
  | cons p rest ih =>
    obtain ⟨k, v⟩ := p
    by_cases hk : k = n
    · simp [entryAdd, hk]
    · simp only [entryAdd, if_neg hk, List.map_cons, List.mem_cons]
      exact Or.inr ih

theorem mem_keys_entryAdd_mono (m : List (String × Nat)) (n : String) (d : Nat)
    {k : String} (h : k ∈ m.map Prod.fst) : k ∈ (entryAdd m n d).map Prod.fst := by
  induction m with
  | nil => simp at h
  | cons p rest ih =>
    obtain ⟨k2, v⟩ := p
    simp only [List.map_cons, List.mem_cons] at h
    by_cases hk : k2 = n
    · simp only [entryAdd, if_pos hk, List.map_cons, List.mem_cons]
      exact h
    · simp only [entryAdd, if_neg hk, List.map_cons, List.mem_cons]
      rcases h with h | h
      · exact Or.inl h
      · exact Or.inr (ih h)

theorem name_mem_keys_timesStepP (now : Nat) (acc : List (String × Nat)) (r : Row) :
    r.name ∈ (timesStepP now acc r).map Prod.fst := by
  unfold timesStepP
  cases r.end_time with
  | none => exact name_mem_keys_entryAdd acc r.name _
  | some e => exact name_mem_keys_entryAdd acc r.name _

theorem mem_keys_timesStepP_mono (now : Nat) (acc : List (String × Nat)) (r : Row)
    {k : String} (h : k ∈ acc.map Prod.fst) :
    k ∈ (timesStepP now acc r).map Prod.fst := by
  unfold timesStepP
  cases r.end_time with
  | none => exact mem_keys_entryAdd_mono acc r.name _ h
  | some e => exact mem_keys_entryAdd_mono acc r.name _ h

theorem mem_keys_foldl_mono (now : Nat) (l : List Row) {k : String} :
    ∀ acc, k ∈ acc.map Prod.fst →
      k ∈ (l.foldl (timesStepP now) acc).map Prod.fst := by
  induction l with
  | nil => intro acc h; exact h
  | cons a as ih =>
    intro acc h
    exact ih (timesStepP now acc a) (mem_keys_timesStepP_mono now acc a h)

theorem mem_keys_foldl_of_mem (now : Nat) {r : Row} :
    ∀ l : List Row, r ∈ l →
      ∀ acc, r.name ∈ (l.foldl (timesStepP now) acc).map Prod.fst := by
  intro l
  induction l with
  | nil => intro hr; simp at hr
  | cons a as ih =>
    intro hr acc
    rcases List.mem_cons.mp hr with rfl | h
    · exact mem_keys_foldl_mono now as (timesStepP now acc r)
        (name_mem_keys_timesStepP now acc r)
    · exact ih h (timesStepP now acc a)

theorem clampedEnd_nonneg {now : Nat} {offset : Int} (h : 0 ≤ (now : Int) + offset) :
    ∀ cur : Option (String × Nat), 0 ≤ clampedEnd now offset cur := by
  intro cur
  cases cur with
  | none => exact h
  | some p =>
    obtain ⟨nm, st⟩ := p
    unfold clampedEnd
    by_cases hlt : (now : Int) + offset < (st : Int)
    · simp [hlt]
    · simpa [hlt] using h

theorem WF_closeAll {s : Store} (hwf : WF s) {t : Int} (ht : 0 ≤ t) :
    ∀ r ∈ closeAll t s.activities,
      0 ≤ r.start_time ∧ ∀ e, r.end_time = some e → 0 ≤ e := by
  intro r hr
  obtain ⟨x, hx, hfx⟩ := List.mem_map.mp hr
  have hxwf := hwf x hx
  rw [← hfx]
  by_cases hxe : x.end_time = none
  · simp only [if_pos hxe]
    refine ⟨hxwf.1, fun e he => ?_⟩
    simp at he
    rw [← he]
    exact ht
  · simp only [if_neg hxe]
    exact hxwf

/-- Claim C10 as stated is false in its aggregation part: a start backdated
before the latest clear marker inserts an Interval that never accumulates
time in activities_times.  Here start("", -50) at now = 100 on a store whose
only clear is at 100 succeeds, inserts the Interval ("", 50, NULL), and the
empty name is listed by list_activities; yet activities_times at a later
instant returns the empty mapping, with no entry for that name. -/
theorem C10_counterexample :
    start_activity ⟨[], [100]⟩ 100 "" (-50) =
      Except.ok ⟨[{ name := "", start_time := 50, end_time := none }], [100]⟩ ∧
    "" ∈ list_activities ⟨[{ name := "", start_time := 50, end_time := none }], [100]⟩ ∧
    activities_times ⟨[{ name := "", start_time := 50, end_time := none }], [100]⟩ 200 =
      Except.ok [] :=
  ⟨by rfl, by decide, by rfl⟩

/-- Claim C10 corrected: start performs no validation of the activity name.
For every name — the empty string included — and every offset, start
succeeds (absent storage failure, here: the open rows have u64-readable start
times) and appends an Interval carrying exactly that name, whose name then
appears in list_activities; and the new Interval accumulates time in
activities_times under the additional condition, missing from the original
claim, that its clamped start_time is at or after the latest clear time. -/
theorem C10_no_name_validation :
    (∀ (s : Store) (now : Nat) (name : String) (offset : Int),
      WFopen s →
      ∃ s' t, start_activity s now name offset = Except.ok s' ∧
        s'.activities.getLast? = some { name := name, start_time := t, end_time := none } ∧
        name ∈ list_activities s') ∧
    (∀ (s : Store) (now : Nat) (name : String) (offset : Int)
      (cur : Option (String × Nat)) (c : Int) (now' : Nat),
      currrent_activity s = Except.ok cur →
      WF s → 0 ≤ (now : Int) + offset →
      maxClears s.clears = some c → c ≤ clampedEnd now offset cur →
      ∃ s' m, start_activity s now name offset = Except.ok s' ∧
        activities_times s' now' = Except.ok m ∧ name ∈ m.map Prod.fst) := by
  constructor
  · intro s now name offset hwo
    obtain ⟨cur, hc⟩ := currrent_activity_isOk_of_WFopen hwo
    refine ⟨_, clampedEnd now offset cur, start_activity_isOk hc now name offset, ?_, ?_⟩
    · simp
    · rw [mem_list_activities]
      simp
  · intro s now name offset cur c now' hc hwf hno hmax hct
    have ht0 : 0 ≤ clampedEnd now offset cur := clampedEnd_nonneg hno cur
    set newRow : Row :=
      { name := name, start_time := clampedEnd now offset cur, end_time := none } with hnr
    set L : List Row :=
      (closeAll (clampedEnd now offset cur) s.activities ++ [newRow]).filter
        (fun r => c ≤ r.start_time) with hLdef
    have hreads : ∀ r ∈ L, 0 ≤ r.start_time ∧ ∀ e, r.end_time = some e → 0 ≤ e := by
      intro r hr
      have hr2 := List.mem_of_mem_filter hr
      rcases List.mem_append.mp hr2 with h2 | h2
      · exact WF_closeAll hwf ht0 r h2
      · rcases List.mem_singleton.mp h2 with rfl
        exact ⟨ht0, fun e he => by cases he⟩
    have hnew : newRow ∈ L :=
      List.mem_filter.mpr
        ⟨List.mem_append_right _ (List.mem_singleton.mpr rfl), by simpa using hct⟩
    refine ⟨_, L.foldl (timesStepP now') [], start_activity_isOk hc now name offset, ?_, ?_⟩
    · show activities_times
        { s with activities :=
            closeAll (clampedEnd now offset cur) s.activities ++ [newRow] } now' = _
      unfold activities_times
      simp only
      rw [hmax]
      exact foldlM_timesStep_ok now' L hreads []
    · exact mem_keys_foldl_of_mem now' L hnew []

theorem C10_no_name_validation_witness :
    (∃ s' t, start_activity ⟨[], [0]⟩ 5 "" 7 = Except.ok s' ∧
      s'.activities.getLast? = some { name := "", start_time := t, end_time := none } ∧
      "" ∈ list_activities s') ∧
    (∃ s' m, start_activity ⟨[], [0]⟩ 5 "" 7 = Except.ok s' ∧
      activities_times s' 9 = Except.ok m ∧ "" ∈ m.map Prod.fst) :=
  ⟨C10_no_name_validation.1 ⟨[], [0]⟩ 5 "" 7 (by decide),
   C10_no_name_validation.2 ⟨[], [0]⟩ 5 "" 7 none 0 9 (by rfl) (by decide) (by decide)
     (by rfl) (by decide)⟩
